import Mathlib

/-!
# BLE SPP server (`src/main.c`): connection handler and bulk transfer task

A shallow embedding of the two pieces of `main.c` that carry the behaviour of
the firmware:

* `ble_spp_server_gap_event` (with `ble_spp_server_advertise`), the GAP event
  callback that maintains the global `connection_handle`;
* `ble_client_my_task`, the FreeRTOS task that streams the payload.

Everything the code does to the outside world (calls into the NimBLE host and
FreeRTOS, and accesses to the shared global `connection_handle`) is recorded as
a list of `Op`s in program order.  Values returned by the outside world are
inputs of the model.  Log output (`MODLOG_DFLT`, `ESP_LOGI`,
`ble_spp_server_print_conn_desc`) is not modelled.
-/

namespace BleServer

/-- The C type of `connection_handle` and of the `conn_handle` event fields. -/
abbrev uint16_t := Fin 65536

/-- One externally visible operation of the firmware, with the value it was
given or that it returned. -/
inductive Op where
  /-- `rc = ble_gap_conn_find(conn_handle, &desc)` -/
  | ble_gap_conn_find (conn_handle : uint16_t) (rc : Int)
  /-- `is_connect = v` -/
  | store_is_connect (v : Bool)
  /-- `connection_handle = v` -/
  | store_connection_handle (v : uint16_t)
  /-- `xTaskCreatePinnedToCore(ble_client_my_task, "myTask", 8192*2, NULL, 8, NULL, 0)` -/
  | xTaskCreatePinnedToCore
  /-- `rc = ble_gap_adv_set_fields(&fields)` -/
  | ble_gap_adv_set_fields (rc : Int)
  /-- `rc = ble_gap_adv_start(...)` -/
  | ble_gap_adv_start (rc : Int)
  /-- `xSemaphoreTake(xGuiSemaphore, portMAX_DELAY)`, `ok` iff it returned `pdTRUE` -/
  | xSemaphoreTake (ok : Bool)
  /-- `xSemaphoreGive(xGuiSemaphore)` -/
  | xSemaphoreGive
  /-- `ble_gattc_exchange_mtu(connection_handle, NULL, NULL)` -/
  | ble_gattc_exchange_mtu (conn_handle : uint16_t)
  /-- `rc = ble_gattc_write_flat(connection_handle, ..., &myarray, 2001, NULL, NULL)` -/
  | ble_gattc_write_flat (conn_handle : uint16_t) (rc : Int)
  /-- `os_msys_num_free()` returned `n` -/
  | os_msys_num_free (n : Int)
  /-- `vTaskDelay(ticks)` -/
  | vTaskDelay (ticks : Nat)
  /-- `vTaskDelete(NULL)` -/
  | vTaskDelete
  /-- the read of `connection_handle` in `if (connection_handle == 9999)` saw `v` -/
  | load_connection_handle (v : uint16_t)
  deriving DecidableEq, Repr

/-- The fields of `struct ble_gap_event` that the callback looks at. -/
inductive ble_gap_event where
  /-- `BLE_GAP_EVENT_CONNECT` -/
  | connect (status : Int) (conn_handle : uint16_t)
  /-- `BLE_GAP_EVENT_DISCONNECT` (the descriptor `disconnect.conn` is only logged) -/
  | disconnect (reason : Int)
  /-- `BLE_GAP_EVENT_CONN_UPDATE` -/
  | conn_update (status : Int) (conn_handle : uint16_t)
  /-- `BLE_GAP_EVENT_ADV_COMPLETE` -/
  | adv_complete (reason : Int)
  /-- `BLE_GAP_EVENT_MTU` -/
  | mtu (conn_handle : uint16_t) (channel_id : uint16_t) (value : uint16_t)
  /-- any other event type (the `default:` branch) -/
  | other (type : Nat)
  deriving DecidableEq, Repr

/-- What the NimBLE host answers to the calls the callback may make while it
handles one event. -/
structure HostRc where
  conn_find_rc : Int
  adv_set_fields_rc : Int
  adv_start_rc : Int
  deriving DecidableEq, Repr

/-- The globals of `main.c` written by the callback: `static bool is_connect`
and `uint16_t connection_handle`. -/
structure Globals where
  is_connect : Bool
  connection_handle : uint16_t
  deriving DecidableEq, Repr

/-- Static storage: `is_connect = false`, `connection_handle` zero-initialised. -/
def Globals.boot : Globals := Globals.mk false 0

/-- `ble_spp_server_advertise` (lines 86-145): set the advertisement fields and,
unless that failed, start advertising.  Either failure is logged and the
function returns.  Filling in the local `fields` and `adv_params` (including
the `ble_svc_gap_device_name()` lookup) has no effect outside the function and
is not recorded. -/
def ble_spp_server_advertise (rc : HostRc) : List Op :=
  if rc.adv_set_fields_rc ≠ 0 then
    [Op.ble_gap_adv_set_fields rc.adv_set_fields_rc]
  else
    [Op.ble_gap_adv_set_fields rc.adv_set_fields_rc, Op.ble_gap_adv_start rc.adv_start_rc]

/-- `ble_spp_server_gap_event` (lines 162-225).  The result is `none` when an
`assert(rc == 0)` fails (the firmware aborts). -/
def ble_spp_server_gap_event (rc : HostRc) (g : Globals) :
    ble_gap_event → Option (Globals × List Op)
  | ble_gap_event.connect status conn_handle =>
    let first : Option (Globals × List Op) :=
      if status = 0 then
        if rc.conn_find_rc = 0 then
          some (Globals.mk true conn_handle,
            [Op.ble_gap_conn_find conn_handle rc.conn_find_rc,
             Op.store_is_connect true,
             Op.store_connection_handle conn_handle,
             Op.xTaskCreatePinnedToCore])
        else none
      else some (g, [])
    match first with
    | none => none
    | some (g1, ops1) =>
      if status ≠ 0 then some (g1, ops1 ++ ble_spp_server_advertise rc)
      else some (g1, ops1)
  | ble_gap_event.disconnect _ =>
    some (Globals.mk g.is_connect 9999,
      Op.store_connection_handle 9999 :: ble_spp_server_advertise rc)
  | ble_gap_event.conn_update _ conn_handle =>
    if rc.conn_find_rc = 0 then
      some (g, [Op.ble_gap_conn_find conn_handle rc.conn_find_rc])
    else none
  | ble_gap_event.adv_complete _ => some (g, ble_spp_server_advertise rc)
  | ble_gap_event.mtu _ _ _ => some (g, [])
  | ble_gap_event.other _ => some (g, [])

/-- The callback applied to a sequence of events, each with the answers of the
host during that event; the operations are concatenated in order. -/
def gap_run (g : Globals) : List (ble_gap_event × HostRc) → Option (Globals × List Op)
  | [] => some (g, [])
  | (ev, rc) :: rest =>
    match ble_spp_server_gap_event rc g ev with
    | none => none
    | some (g1, ops1) =>
      match gap_run g1 rest with
      | none => none
      | some (g2, ops2) => some (g2, ops1 ++ ops2)

/-- Control points of `ble_client_my_task` (lines 350-427).  Each names the
operation the task performs next; `i` and `failcount` are the locals of the
transfer loop (both stay within `0..500`, far from the range of `int`). -/
inductive TaskState where
  /-- line 377: about to take the semaphore for the MTU exchange -/
  | start
  /-- line 378: holds the semaphore, about to call `ble_gattc_exchange_mtu` -/
  | mtu
  /-- line 380: about to give the semaphore back -/
  | mtu_give
  /-- line 384: `vTaskDelay(10)` -/
  | delay10
  /-- lines 387-389: top of `for (;;)`, resets `failcount` and logs the free count -/
  | pass_start
  /-- lines 390-396: loop test `i < 500` and the `connection_handle == 9999` check -/
  | loop_head (i : Nat) (failcount : Nat)
  /-- lines 397-400: `while (os_msys_num_free() < 9) vTaskDelay(1)` -/
  | capacity_wait (i : Nat) (failcount : Nat)
  /-- line 401: about to take the semaphore for the write -/
  | take (i : Nat) (failcount : Nat)
  /-- line 404: holds the semaphore, about to call `ble_gattc_write_flat` -/
  | write (i : Nat) (failcount : Nat)
  /-- line 413: about to give the semaphore back -/
  | give (i : Nat) (failcount : Nat)
  /-- lines 421-422: pass finished, logs `failcount`, `vTaskDelay(2000)` -/
  | pass_done (failcount : Nat)
  /-- after `vTaskDelete(NULL); return;` (lines 394-395) -/
  | deleted
  deriving DecidableEq, Repr

/-- What the task sees of the outside world during one step: the value of the
global `connection_handle` at that moment and the results the next external
call would return. -/
structure TaskEnv where
  connection_handle : uint16_t
  num_free : Int
  take_ok : Bool
  write_rc : Int
  deriving DecidableEq, Repr

/-- One step of `ble_client_my_task`: from a control point to the next one,
with the operations performed on the way. -/
def ble_client_my_task (e : TaskEnv) : TaskState → TaskState × List Op
  | TaskState.start =>
    if e.take_ok then (TaskState.mtu, [Op.xSemaphoreTake true])
    else (TaskState.delay10, [Op.xSemaphoreTake false])
  | TaskState.mtu =>
    (TaskState.mtu_give, [Op.ble_gattc_exchange_mtu e.connection_handle])
  | TaskState.mtu_give => (TaskState.delay10, [Op.xSemaphoreGive])
  | TaskState.delay10 => (TaskState.pass_start, [Op.vTaskDelay 10])
  | TaskState.pass_start => (TaskState.loop_head 0 0, [Op.os_msys_num_free e.num_free])
  | TaskState.loop_head i failcount =>
    if i < 500 then
      if e.connection_handle = 9999 then
        (TaskState.deleted, [Op.load_connection_handle e.connection_handle, Op.vTaskDelete])
      else
        (TaskState.capacity_wait i failcount, [Op.load_connection_handle e.connection_handle])
    else (TaskState.pass_done failcount, [])
  | TaskState.capacity_wait i failcount =>
    if e.num_free < 9 then
      (TaskState.capacity_wait i failcount, [Op.os_msys_num_free e.num_free, Op.vTaskDelay 1])
    else (TaskState.take i failcount, [Op.os_msys_num_free e.num_free])
  | TaskState.take i failcount =>
    if e.take_ok then (TaskState.write i failcount, [Op.xSemaphoreTake true])
    else (TaskState.loop_head (i + 1) failcount, [Op.xSemaphoreTake false])
  | TaskState.write i failcount =>
    (TaskState.give i (if e.write_rc = 0 then failcount else failcount + 1),
      [Op.ble_gattc_write_flat e.connection_handle e.write_rc])
  | TaskState.give i failcount => (TaskState.loop_head (i + 1) failcount, [Op.xSemaphoreGive])
  | TaskState.pass_done _ => (TaskState.pass_start, [Op.vTaskDelay 2000])
  | TaskState.deleted => (TaskState.deleted, [])

/-- The task run for one step per element of `es`. -/
def run_task (s : TaskState) : List TaskEnv → TaskState × List Op
  | [] => (s, [])
  | e :: es =>
    ((run_task (ble_client_my_task e s).1 es).1,
      (ble_client_my_task e s).2 ++ (run_task (ble_client_my_task e s).1 es).2)

/-- The task run until the current pass is over (`pass_done`) or the task has
deleted itself; `none` when `es` ends before that. -/
def run_pass : TaskState → List TaskEnv → Option (TaskState × List Op)
  | TaskState.pass_done failcount, _ => some (TaskState.pass_done failcount, [])
  | TaskState.deleted, _ => some (TaskState.deleted, [])
  | _, [] => none
  | s, e :: es =>
    match run_pass (ble_client_my_task e s).1 es with
    | none => none
    | some (s1, ops) => some (s1, (ble_client_my_task e s).2 ++ ops)

/-- The firmware as a whole: the globals and the control point of every
transfer task created so far (in creation order). -/
structure System where
  g : Globals
  tasks : List TaskState
  deriving DecidableEq, Repr

/-- State after `app_main`: no task has been created. -/
def System.boot : System := System.mk Globals.boot []

/-- One scheduling decision: the host task handles a GAP event to completion,
or transfer task number `k` performs one step. -/
inductive Sched where
  | gap (ev : ble_gap_event) (rc : HostRc)
  | task (k : Nat) (num_free : Int) (take_ok : Bool) (write_rc : Int)
  deriving DecidableEq, Repr

/-- Number of `xTaskCreatePinnedToCore` calls among `ops`. -/
def created (ops : List Op) : Nat := ops.count Op.xTaskCreatePinnedToCore

/-- One step of the whole firmware.  Every `xTaskCreatePinnedToCore` call of
the callback adds a task at `start` (task creation is taken to succeed; the
code ignores its result).  A task step reads the current `connection_handle`.
A step of a task that does not exist does nothing.  The semaphore is not
tracked here: whether a take succeeds is an input, so this system allows at
least every interleaving of the firmware. -/
def System.step (s : System) : Sched → Option (System × List Op)
  | Sched.gap ev rc =>
    match ble_spp_server_gap_event rc s.g ev with
    | none => none
    | some (g1, ops) =>
      some (System.mk g1 (s.tasks ++ List.replicate (created ops) TaskState.start), ops)
  | Sched.task k num_free take_ok write_rc =>
    match s.tasks.get? k with
    | none => some (s, [])
    | some t =>
      some (System.mk s.g
          (s.tasks.set k
            (ble_client_my_task (TaskEnv.mk s.g.connection_handle num_free take_ok write_rc) t).1),
        (ble_client_my_task (TaskEnv.mk s.g.connection_handle num_free take_ok write_rc) t).2)

/-- The firmware run along a schedule. -/
def System.run (s : System) : List Sched → Option (System × List Op)
  | [] => some (s, [])
  | x :: rest =>
    match s.step x with
    | none => none
    | some (s1, ops1) =>
      match System.run s1 rest with
      | none => none
      | some (s2, ops2) => some (s2, ops1 ++ ops2)

/-- Tasks that have been created and have not deleted themselves. -/
def System.running (s : System) : Nat := s.tasks.countP (fun t => t ≠ TaskState.deleted)

/-- Number of `ble_gattc_write_flat` calls among `ops`. -/
def writes : List Op → Nat
  | [] => 0
  | Op.ble_gattc_write_flat _ _ :: ops => writes ops + 1
  | _ :: ops => writes ops

/-- The statuses returned by the `ble_gattc_write_flat` calls among `ops`, in order. -/
def write_rcs : List Op → List Int
  | [] => []
  | Op.ble_gattc_write_flat _ rc :: ops => rc :: write_rcs ops
  | _ :: ops => write_rcs ops

/-- Number of `ble_gattc_write_flat` calls among `ops` that returned non-zero. -/
def failed_writes (ops : List Op) : Nat := (write_rcs ops).countP (fun rc => rc ≠ 0)

/-- Whether `op` is one of the two advertising calls of `ble_spp_server_advertise`. -/
def is_adv_call : Op → Bool
  | Op.ble_gap_adv_set_fields _ => true
  | Op.ble_gap_adv_start _ => true
  | _ => false

/-- The schedule in which transfer task `k` performs one step per element of
`ins` (free-buffer count, semaphore result, write status) and no GAP event is
handled. -/
def task_steps (k : Nat) (ins : List (Int × Bool × Int)) : List Sched :=
  ins.map (fun x => Sched.task k x.1 x.2.1 x.2.2)

/-- The environments a task sees along `task_steps` while `connection_handle`
holds `h`. -/
def envs_at (h : uint16_t) (ins : List (Int × Bool × Int)) : List TaskEnv :=
  ins.map (fun x => TaskEnv.mk h x.1 x.2.1 x.2.2)

/-- Control points of the transfer loop from which the next
`ble_gattc_write_flat` can only be reached through the capacity wait. -/
def before_capacity : TaskState → Bool
  | TaskState.pass_start => true
  | TaskState.loop_head _ _ => true
  | TaskState.capacity_wait _ _ => true
  | TaskState.pass_done _ => true
  | TaskState.deleted => true
  | _ => false

/-- Whether `op` is what one round of the capacity wait performs: a read of the
free-buffer count or `vTaskDelay(1)`. -/
def is_poll : Op → Bool
  | Op.os_msys_num_free _ => true
  | Op.vTaskDelay 1 => true
  | _ => false

/-- What a task holds of `xGuiSemaphore`. -/
inductive LockSt where
  /-- not held -/
  | free
  /-- taken, the protected stack operation not yet issued -/
  | held
  /-- taken, the protected stack operation issued, not yet given back -/
  | used
  deriving DecidableEq, Repr

/-- The effect of one operation on the lock discipline: a take is allowed only
while the task does not hold the semaphore, a stack operation
(`ble_gattc_exchange_mtu`, `ble_gattc_write_flat`) only right under a successful
take, and a give only after that operation, once.  The result is `none` when
`op` breaks this. -/
def lock_step (st : LockSt) : Op → Option LockSt
  | Op.xSemaphoreTake ok =>
    if st = LockSt.free then some (if ok then LockSt.held else LockSt.free) else none
  | Op.ble_gattc_exchange_mtu _ => if st = LockSt.held then some LockSt.used else none
  | Op.ble_gattc_write_flat _ _ => if st = LockSt.held then some LockSt.used else none
  | Op.xSemaphoreGive => if st = LockSt.used then some LockSt.free else none
  | _ => some st

/-- The lock discipline checked along a list of operations, starting with the
semaphore in state `st`: `none` at the first operation that breaks it, else the
state at the end. -/
def lock_discipline : LockSt → List Op → Option LockSt
  | st, [] => some st
  | st, op :: ops =>
    match lock_step st op with
    | none => none
    | some st1 => lock_discipline st1 ops

/-- What the task holds of the semaphore at each control point. -/
def lock_of : TaskState → LockSt
  | TaskState.mtu => LockSt.held
  | TaskState.write _ _ => LockSt.held
  | TaskState.mtu_give => LockSt.used
  | TaskState.give _ _ => LockSt.used
  | _ => LockSt.free

/-- Control points of a pass in progress whose chunk index is in range. -/
def in_pass : TaskState → Bool
  | TaskState.pass_start => true
  | TaskState.loop_head i _ => decide (i ≤ 500)
  | TaskState.capacity_wait i _ => decide (i < 500)
  | TaskState.take i _ => decide (i < 500)
  | TaskState.write i _ => decide (i < 500)
  | TaskState.give i _ => decide (i < 500)
  | TaskState.pass_done _ => true
  | _ => false

/-- Chunks of the current pass already dealt with at a control point (equal to
the writes issued so far when no semaphore take has failed). -/
def done_chunks : TaskState → Nat
  | TaskState.loop_head i _ => i
  | TaskState.capacity_wait i _ => i
  | TaskState.take i _ => i
  | TaskState.write i _ => i
  | TaskState.give i _ => i + 1
  | TaskState.pass_done _ => 500
  | _ => 0

/-- The value of the local `failcount` at a control point (0 before the pass
has initialised it). -/
def cur_failcount : TaskState → Nat
  | TaskState.loop_head _ failcount => failcount
  | TaskState.capacity_wait _ failcount => failcount
  | TaskState.take _ failcount => failcount
  | TaskState.write _ failcount => failcount
  | TaskState.give _ failcount => failcount
  | TaskState.pass_done failcount => failcount
  | _ => 0

/-- Steps from a control point to the end of the pass when nothing has to be
waited for. -/
def steps_left : TaskState → Nat
  | TaskState.pass_start => 2502
  | TaskState.loop_head i _ => 5 * (500 - i) + 1
  | TaskState.capacity_wait i _ => 5 * (500 - i)
  | TaskState.take i _ => 5 * (500 - i) - 1
  | TaskState.write i _ => 5 * (500 - i) - 2
  | TaskState.give i _ => 5 * (500 - i) - 3
  | _ => 0

/-- The environments of scenario 5: free-buffer count 9, every take succeeds,
and the write of chunk `i` returns status 1 when `i + 1` is a multiple of 10 and
0 otherwise.  One environment for the start of the pass, five per chunk, one for
the last loop test. -/
def scenario5 : List TaskEnv :=
  TaskEnv.mk 7 9 true 0 ::
    ((List.range 500).flatMap (fun i =>
        [TaskEnv.mk 7 9 true 0, TaskEnv.mk 7 9 true 0, TaskEnv.mk 7 9 true 0,
         TaskEnv.mk 7 9 true (if (i + 1) % 10 = 0 then 1 else 0), TaskEnv.mk 7 9 true 0])
      ++ [TaskEnv.mk 7 9 true 0])

/-- The schedule of the race on the capacity wait: a connection with handle 7
is established, its task runs up to the capacity wait of chunk 0 (its check
reads 7) and polls once with 3 free buffers; the disconnect is handled; then the
task reads 9 free buffers, takes the semaphore and writes (the stack answers
status 7). -/
def race_in_wait : List Sched :=
  [Sched.gap (ble_gap_event.connect 0 7) (HostRc.mk 0 0 0),
   Sched.task 0 12 true 0, Sched.task 0 12 true 0, Sched.task 0 12 true 0,
   Sched.task 0 12 true 0, Sched.task 0 12 true 0, Sched.task 0 12 true 0,
   Sched.task 0 3 true 0,
   Sched.gap (ble_gap_event.disconnect 19) (HostRc.mk 0 0 0),
   Sched.task 0 9 true 7, Sched.task 0 9 true 7, Sched.task 0 9 true 7]

/-- The schedule of the race on the lock acquire: as `race_in_wait`, but the
disconnect is handled after the capacity wait has ended and before the
semaphore is taken. -/
def race_in_take : List Sched :=
  [Sched.gap (ble_gap_event.connect 0 7) (HostRc.mk 0 0 0),
   Sched.task 0 12 true 0, Sched.task 0 12 true 0, Sched.task 0 12 true 0,
   Sched.task 0 12 true 0, Sched.task 0 12 true 0, Sched.task 0 12 true 0,
   Sched.task 0 9 true 0,
   Sched.gap (ble_gap_event.disconnect 19) (HostRc.mk 0 0 0),
   Sched.task 0 9 true 7, Sched.task 0 9 true 7]

/-- The schedule of a quick reconnect: a connection with handle 7 is
established and its task runs up to the capacity wait of chunk 0; the disconnect
and a new successful connect with handle 8 are handled before that task reaches
its next check; then the old task goes on through a write and its next check,
and the new task starts. -/
def quick_reconnect : List Sched :=
  [Sched.gap (ble_gap_event.connect 0 7) (HostRc.mk 0 0 0),
   Sched.task 0 12 true 0, Sched.task 0 12 true 0, Sched.task 0 12 true 0,
   Sched.task 0 12 true 0, Sched.task 0 12 true 0, Sched.task 0 12 true 0,
   Sched.gap (ble_gap_event.disconnect 19) (HostRc.mk 0 0 0),
   Sched.gap (ble_gap_event.connect 0 8) (HostRc.mk 0 0 0),
   Sched.task 0 12 true 0, Sched.task 0 12 true 0, Sched.task 0 12 true 0,
   Sched.task 0 12 true 0, Sched.task 0 12 true 0,
   Sched.task 1 12 true 0, Sched.task 1 12 true 0]

/-- Whether a scheduling decision is the handling of a successful connect
event (`status == 0`): 1 if so, else 0. -/
def Sched.connects : Sched → Nat
  | Sched.gap (ble_gap_event.connect status _) _ => if status = 0 then 1 else 0
  | _ => 0

/-- Number of successful connect events in a schedule. -/
def connects : List Sched → Nat
  | [] => 0
  | x :: rest => x.connects + connects rest

/-- The operations performed along `quick_reconnect`. -/
def quick_reconnect_ops : List Op :=
  [Op.ble_gap_conn_find 7 0, Op.store_is_connect true,
   Op.store_connection_handle 7, Op.xTaskCreatePinnedToCore,
   Op.xSemaphoreTake true, Op.ble_gattc_exchange_mtu 7, Op.xSemaphoreGive,
   Op.vTaskDelay 10, Op.os_msys_num_free 12,
   Op.load_connection_handle 7,
   Op.store_connection_handle 9999, Op.ble_gap_adv_set_fields 0, Op.ble_gap_adv_start 0,
   Op.ble_gap_conn_find 8 0, Op.store_is_connect true,
   Op.store_connection_handle 8, Op.xTaskCreatePinnedToCore,
   Op.os_msys_num_free 12, Op.xSemaphoreTake true,
   Op.ble_gattc_write_flat 8 0, Op.xSemaphoreGive,
   Op.load_connection_handle 8,
   Op.xSemaphoreTake true, Op.ble_gattc_exchange_mtu 8]

/-- Control points a task can be at before its first connection check has
let it through, together with the deleted state. -/
def before_first_check : TaskState → Bool
  | TaskState.start => true
  | TaskState.mtu => true
  | TaskState.mtu_give => true
  | TaskState.delay10 => true
  | TaskState.pass_start => true
  | TaskState.loop_head 0 0 => true
  | TaskState.deleted => true
  | _ => false

/-- Steps a task needs at most from a control point before its first check to
have performed that check. -/
def steps_to_first_check : TaskState → Nat
  | TaskState.start => 6
  | TaskState.mtu => 5
  | TaskState.mtu_give => 4
  | TaskState.delay10 => 3
  | TaskState.pass_start => 2
  | TaskState.loop_head _ _ => 1
  | _ => 0

/-- Number of `ble_gattc_exchange_mtu` calls among `ops`. -/
def mtu_exchanges : List Op → Nat
  | [] => 0
  | Op.ble_gattc_exchange_mtu _ :: ops => mtu_exchanges ops + 1
  | _ :: ops => mtu_exchanges ops

/-- Whether the MTU exchange still lies ahead of a control point: 1 if so. -/
def mtu_ahead : TaskState → Nat
  | TaskState.start => 1
  | TaskState.mtu => 1
  | _ => 0

/-! ## Auxiliary lemmas -/

theorem advertise_cases (rc : HostRc) :
    (rc.adv_set_fields_rc ≠ 0 ∧
        ble_spp_server_advertise rc = [Op.ble_gap_adv_set_fields rc.adv_set_fields_rc]) ∨
    (rc.adv_set_fields_rc = 0 ∧
        ble_spp_server_advertise rc =
          [Op.ble_gap_adv_set_fields rc.adv_set_fields_rc, Op.ble_gap_adv_start rc.adv_start_rc]) := by
  unfold ble_spp_server_advertise
  by_cases h : rc.adv_set_fields_rc = 0
  · right; simp [h]
  · left; simp [h]

theorem advertise_all_adv (rc : HostRc) : ∀ op ∈ ble_spp_server_advertise rc, is_adv_call op = true := by
  intro op hop
  rcases advertise_cases rc with ⟨_, h⟩ | ⟨_, h⟩ <;> rw [h] at hop <;> simp at hop
  · subst hop; rfl
  · rcases hop with rfl | rfl <;> rfl

theorem envs_at_handle (h : uint16_t) (ins : List (Int × Bool × Int)) :
    ∀ e ∈ envs_at h ins, e.connection_handle = h := by
  intro e he
  simp only [envs_at, List.mem_map] at he
  obtain ⟨x, _, rfl⟩ := he
  rfl

theorem set_of_get? {α : Type} (l : List α) (k : Nat) (a : α) (h : l.get? k = some a) :
    l.set k a = l := by
  induction l generalizing k with
  | nil => rfl
  | cons x l ih =>
    cases k with
    | zero => simp at h; simp [h]
    | succ k => simp at h; simp [ih k (by simpa using h)]

theorem get?_set_self {α : Type} (l : List α) (k : Nat) (a b : α) (h : l.get? k = some a) :
    (l.set k b).get? k = some b := by
  induction l generalizing k with
  | nil => simp at h
  | cons x l ih =>
    cases k with
    | zero => simp
    | succ k => simp at h; simpa using ih k (by simpa using h)

theorem System.run_task_steps (k : Nat) (ins : List (Int × Bool × Int)) :
    ∀ (s : System) (t : TaskState), s.tasks.get? k = some t →
      System.run s (task_steps k ins) =
        some (System.mk s.g (s.tasks.set k (run_task t (envs_at s.g.connection_handle ins)).1),
          (run_task t (envs_at s.g.connection_handle ins)).2) := by
  induction ins with
  | nil =>
    intro s t ht
    simp [task_steps, envs_at, System.run, run_task, set_of_get? _ _ _ ht]
  | cons x ins ih =>
    intro s t ht
    have h1 := ih (System.mk s.g (s.tasks.set k
      (ble_client_my_task (TaskEnv.mk s.g.connection_handle x.1 x.2.1 x.2.2) t).1))
      (ble_client_my_task (TaskEnv.mk s.g.connection_handle x.1 x.2.1 x.2.2) t).1
      (get?_set_self _ _ _ _ ht)
    simp only [task_steps, List.map_cons, System.run, System.step, ht, envs_at, run_task] at h1 ⊢
    rw [h1]
    simp

theorem gap_run_append (evs1 evs2 : List (ble_gap_event × HostRc)) :
    ∀ (g g1 g2 : Globals) (ops1 ops2 : List Op),
      gap_run g evs1 = some (g1, ops1) → gap_run g1 evs2 = some (g2, ops2) →
      gap_run g (evs1 ++ evs2) = some (g2, ops1 ++ ops2) := by
  induction evs1 with
  | nil =>
    intro g g1 g2 ops1 ops2 h1 h2
    simp only [gap_run, Option.some.injEq, Prod.mk.injEq] at h1
    obtain ⟨rfl, rfl⟩ := h1
    simpa using h2
  | cons x evs1 ih =>
    intro g g1 g2 ops1 ops2 h1 h2
    obtain ⟨ev, rc⟩ := x
    simp only [List.cons_append, gap_run] at h1 ⊢
    cases hev : ble_spp_server_gap_event rc g ev with
    | none => simp [hev] at h1
    | some r =>
      obtain ⟨ga, opsa⟩ := r
      simp only [hev] at h1 ⊢
      cases hrest : gap_run ga evs1 with
      | none => simp [hrest] at h1
      | some r1 =>
        obtain ⟨gb, opsb⟩ := r1
        simp only [hrest, Option.some.injEq, Prod.mk.injEq] at h1
        obtain ⟨rfl, rfl⟩ := h1
        simp [ih ga gb g2 opsb ops2 hrest h2]

theorem gap_event_connect_ok (rc : HostRc) (g : Globals) (h : uint16_t)
    (hrc : rc.conn_find_rc = 0) :
    ble_spp_server_gap_event rc g (ble_gap_event.connect 0 h) =
      some (Globals.mk true h,
        [Op.ble_gap_conn_find h 0, Op.store_is_connect true,
         Op.store_connection_handle h, Op.xTaskCreatePinnedToCore]) := by
  simp [ble_spp_server_gap_event, hrc]

theorem gap_event_connect_failed (rc : HostRc) (g : Globals) (h : uint16_t) (status : Int)
    (hst : status ≠ 0) :
    ble_spp_server_gap_event rc g (ble_gap_event.connect status h) =
      some (g, ble_spp_server_advertise rc) := by
  simp [ble_spp_server_gap_event, hst]

/-! ## The GAP event callback -/

/-- C4: for every disconnect event, whatever the globals and the reason, the
callback first stores 9999 in `connection_handle` and only then runs
`ble_spp_server_advertise`: the store is the first operation, everything after
it is an advertising call (so no later store changes the record), the attempt
always issues `ble_gap_adv_set_fields` exactly once, followed by
`ble_gap_adv_start` exactly when that returned 0, and the record reads 9999 when
the callback returns. -/
theorem disconnect_sets_none_then_advertises (rc : HostRc) (g : Globals) (reason : Int) :
    ∃ adv,
      ble_spp_server_gap_event rc g (ble_gap_event.disconnect reason)
        = some (Globals.mk g.is_connect 9999, Op.store_connection_handle 9999 :: adv)
      ∧ adv = ble_spp_server_advertise rc
      ∧ (∀ op ∈ adv, is_adv_call op = true)
      ∧ adv.head? = some (Op.ble_gap_adv_set_fields rc.adv_set_fields_rc)
      ∧ adv.count (Op.ble_gap_adv_set_fields rc.adv_set_fields_rc) = 1
      ∧ (Op.ble_gap_adv_start rc.adv_start_rc ∈ adv ↔ rc.adv_set_fields_rc = 0) := by
  refine ⟨ble_spp_server_advertise rc, rfl, rfl, advertise_all_adv rc, ?_, ?_, ?_⟩
  · rcases advertise_cases rc with ⟨_, h⟩ | ⟨_, h⟩ <;> rw [h] <;> rfl
  · rcases advertise_cases rc with ⟨_, h⟩ | ⟨_, h⟩ <;> rw [h] <;> simp
  · rcases advertise_cases rc with ⟨h0, h⟩ | ⟨h0, h⟩ <;> rw [h] <;> simp [h0]

/-- C2 fails as stated: after `connect(status 0, handle 7)` the record is 7, and
a further `connect(status 0, handle 8)` leaves it at 8, not at 7. -/
theorem second_connect_replaces_record :
    (gap_run Globals.boot [(ble_gap_event.connect 0 7, HostRc.mk 0 0 0)]).map
        (fun r => r.1.connection_handle) = some 7
    ∧ (gap_run Globals.boot [(ble_gap_event.connect 0 7, HostRc.mk 0 0 0),
          (ble_gap_event.connect 0 8, HostRc.mk 0 0 0)]).map
        (fun r => r.1.connection_handle) = some 8
    ∧ (gap_run Globals.boot [(ble_gap_event.connect 0 7, HostRc.mk 0 0 0),
          (ble_gap_event.connect 0 8, HostRc.mk 0 0 0)]).map
        (fun r => r.1.connection_handle) ≠ some 7 := by
  decide

/-- C2 (amended): after any sequence of GAP events, which left the record at
some handle `h = g.connection_handle`, a further connect event with status 0 and
handle `h1` (its connection lookup succeeding) stores `h1` in the record and
requests one more task; the record still equals `h` afterwards exactly when
`h1 = h`. -/
theorem connect_success_stores_event_handle (evs : List (ble_gap_event × HostRc))
    (g : Globals) (ops : List Op) (h1 : uint16_t) (rc : HostRc)
    (hrun : gap_run Globals.boot evs = some (g, ops)) (hrc : rc.conn_find_rc = 0) :
    ∃ g1,
      gap_run Globals.boot (evs ++ [(ble_gap_event.connect 0 h1, rc)])
        = some (g1, ops ++ [Op.ble_gap_conn_find h1 0, Op.store_is_connect true,
            Op.store_connection_handle h1, Op.xTaskCreatePinnedToCore])
      ∧ g1.connection_handle = h1
      ∧ (g1.connection_handle = g.connection_handle ↔ h1 = g.connection_handle) := by
  refine ⟨Globals.mk true h1, ?_, rfl, Iff.rfl⟩
  apply gap_run_append evs _ Globals.boot g _ ops _ hrun
  simp [gap_run, gap_event_connect_ok rc g h1 hrc]

/-- Witness of C2 (amended): the record is 7 after one successful connect, and a
second successful connect with handle 8 replaces it. -/
theorem connect_success_stores_event_handle_witness :
    gap_run Globals.boot [(ble_gap_event.connect 0 7, HostRc.mk 0 0 0)]
      = some (Globals.mk true 7, [Op.ble_gap_conn_find 7 0, Op.store_is_connect true,
          Op.store_connection_handle 7, Op.xTaskCreatePinnedToCore])
    ∧ (HostRc.mk 0 0 0).conn_find_rc = 0
    ∧ ∃ g1,
      gap_run Globals.boot ([(ble_gap_event.connect 0 7, HostRc.mk 0 0 0)]
          ++ [(ble_gap_event.connect 0 8, HostRc.mk 0 0 0)])
        = some (g1, [Op.ble_gap_conn_find 7 0, Op.store_is_connect true,
            Op.store_connection_handle 7, Op.xTaskCreatePinnedToCore]
          ++ [Op.ble_gap_conn_find 8 0, Op.store_is_connect true,
            Op.store_connection_handle 8, Op.xTaskCreatePinnedToCore])
      ∧ g1.connection_handle = 8
      ∧ (g1.connection_handle = (Globals.mk true 7).connection_handle
          ↔ (8 : uint16_t) = (Globals.mk true 7).connection_handle) :=
  ⟨by decide, rfl,
    connect_success_stores_event_handle [(ble_gap_event.connect 0 7, HostRc.mk 0 0 0)]
      (Globals.mk true 7) _ 8 (HostRc.mk 0 0 0) (by decide) rfl⟩

/-! ## The transfer task -/

theorem writes_append (a b : List Op) : writes (a ++ b) = writes a + writes b := by
  induction a with
  | nil => simp [writes]
  | cons op a ih => cases op <;> simp [writes, ih]; omega

theorem run_task_deleted (es : List TaskEnv) :
    run_task TaskState.deleted es = (TaskState.deleted, []) := by
  induction es with
  | nil => rfl
  | cons e es ih => simp [run_task, ble_client_my_task, ih]

theorem step_deleted_iff (e : TaskEnv) (s : TaskState) (hs : s ≠ TaskState.deleted) :
    (ble_client_my_task e s).1 = TaskState.deleted ↔
      Op.load_connection_handle 9999 ∈ (ble_client_my_task e s).2 := by
  cases s <;> simp only [ble_client_my_task] <;> (try split) <;> (try split) <;>
    first
    | (simp_all; done)
    | (simp_all; rename_i h; exact fun h2 => h h2.symm)

theorem run_task_deleted_iff (es : List TaskEnv) :
    ∀ s : TaskState, s ≠ TaskState.deleted →
      ((run_task s es).1 = TaskState.deleted ↔
        Op.load_connection_handle 9999 ∈ (run_task s es).2) := by
  induction es with
  | nil => intro s hs; simp [run_task, hs]
  | cons e es ih =>
    intro s hs
    simp only [run_task, List.mem_append]
    by_cases hd : (ble_client_my_task e s).1 = TaskState.deleted
    · have h1 := (step_deleted_iff e s hs).1 hd
      simp [hd, run_task_deleted, h1]
    · have h1 : Op.load_connection_handle 9999 ∉ (ble_client_my_task e s).2 :=
        fun h => hd ((step_deleted_iff e s hs).2 h)
      simp [h1, ih _ hd]

/-- C9: at the top of a chunk iteration (`i < 500`) a task that reads 9999 from
`connection_handle` deletes itself in that step, performing only the read and
`vTaskDelete` (no capacity poll, no semaphore take, no write), and a deleted task
performs nothing further; a task that reads any other value goes on to the
capacity wait of that iteration.  This check is the only exit: for every task
state other than deleted and every run from it, under any write statuses,
semaphore results and free-buffer counts, the task ends deleted exactly when one
of its checks read 9999. -/
theorem connection_check_is_only_exit :
    (∀ (e : TaskEnv) (i failcount : Nat), i < 500 → e.connection_handle = 9999 →
      ble_client_my_task e (TaskState.loop_head i failcount)
        = (TaskState.deleted, [Op.load_connection_handle 9999, Op.vTaskDelete]))
    ∧ (∀ es : List TaskEnv, run_task TaskState.deleted es = (TaskState.deleted, []))
    ∧ (∀ (e : TaskEnv) (i failcount : Nat), i < 500 → e.connection_handle ≠ 9999 →
      ble_client_my_task e (TaskState.loop_head i failcount)
        = (TaskState.capacity_wait i failcount,
            [Op.load_connection_handle e.connection_handle]))
    ∧ (∀ (s : TaskState) (es : List TaskEnv), s ≠ TaskState.deleted →
      ((run_task s es).1 = TaskState.deleted ↔
        Op.load_connection_handle 9999 ∈ (run_task s es).2)) := by
  refine ⟨?_, run_task_deleted, ?_, fun s es hs => run_task_deleted_iff es s hs⟩
  · intro e i failcount hi he
    simp [ble_client_my_task, hi, he]
  · intro e i failcount hi he
    simp [ble_client_my_task, hi, he]

/-- Witness of C9: a task at the top of chunk 3 that reads 9999 deletes itself;
one that reads 7 enters the capacity wait; and a task started with the record at
7 that runs twelve steps (with a failing semaphore take on the way) is not
deleted. -/
theorem connection_check_is_only_exit_witness :
    ble_client_my_task (TaskEnv.mk 9999 20 true 0) (TaskState.loop_head 3 1)
        = (TaskState.deleted, [Op.load_connection_handle 9999, Op.vTaskDelete])
    ∧ ble_client_my_task (TaskEnv.mk 7 20 true 0) (TaskState.loop_head 3 1)
        = (TaskState.capacity_wait 3 1, [Op.load_connection_handle 7])
    ∧ TaskState.start ≠ TaskState.deleted
    ∧ ((run_task TaskState.start (List.replicate 12 (TaskEnv.mk 7 20 false 5))).1
          = TaskState.deleted ↔
        Op.load_connection_handle 9999 ∈
          (run_task TaskState.start (List.replicate 12 (TaskEnv.mk 7 20 false 5))).2)
    ∧ (run_task TaskState.start (List.replicate 12 (TaskEnv.mk 7 20 false 5))).1
        ≠ TaskState.deleted :=
  ⟨connection_check_is_only_exit.1 (TaskEnv.mk 9999 20 true 0) 3 1 (by decide) rfl,
    connection_check_is_only_exit.2.2.1 (TaskEnv.mk 7 20 true 0) 3 1 (by decide) (by decide),
    by decide,
    connection_check_is_only_exit.2.2.2 TaskState.start _ (by decide),
    by decide⟩

theorem run_task_append (a b : List TaskEnv) :
    ∀ s : TaskState, run_task s (a ++ b) =
      ((run_task (run_task s a).1 b).1, (run_task s a).2 ++ (run_task (run_task s a).1 b).2) := by
  induction a with
  | nil => intro s; simp [run_task]
  | cons e a ih => intro s; simp [run_task, ih]

theorem step_before_capacity (e : TaskEnv) (s : TaskState) (hs : before_capacity s = true)
    (hobs : ∀ n, Op.os_msys_num_free n ∈ (ble_client_my_task e s).2 → n < 9) :
    before_capacity (ble_client_my_task e s).1 = true ∧ writes (ble_client_my_task e s).2 = 0 := by
  cases s <;> simp only [before_capacity] at hs <;>
    simp only [ble_client_my_task] at hobs ⊢ <;> (try split) <;> (try split) <;>
    simp_all [before_capacity, writes]

theorem run_before_capacity (es : List TaskEnv) :
    ∀ s : TaskState, before_capacity s = true →
      (∀ n, Op.os_msys_num_free n ∈ (run_task s es).2 → n < 9) →
      before_capacity (run_task s es).1 = true ∧ writes (run_task s es).2 = 0 := by
  induction es with
  | nil => intro s hs _; simp [run_task, hs, writes]
  | cons e es ih =>
    intro s hs hobs
    simp only [run_task, List.mem_append] at hobs ⊢
    have h1 := step_before_capacity e s hs (fun n hn => hobs n (Or.inl hn))
    have h2 := ih _ h1.1 (fun n hn => hobs n (Or.inr hn))
    simp [writes_append, h1.2, h2]

theorem run_capacity_wait (es : List TaskEnv) (i failcount : Nat)
    (hobs : ∀ n, Op.os_msys_num_free n ∈
      (run_task (TaskState.capacity_wait i failcount) es).2 → n < 9) :
    (run_task (TaskState.capacity_wait i failcount) es).1 = TaskState.capacity_wait i failcount
    ∧ ∀ op ∈ (run_task (TaskState.capacity_wait i failcount) es).2, is_poll op = true := by
  induction es with
  | nil => simp [run_task]
  | cons e es ih =>
    have he : e.num_free < 9 := by
      apply hobs
      simp only [run_task, ble_client_my_task]
      split <;> simp
    have hstep : ble_client_my_task e (TaskState.capacity_wait i failcount) =
        (TaskState.capacity_wait i failcount,
          [Op.os_msys_num_free e.num_free, Op.vTaskDelay 1]) := by
      simp [ble_client_my_task, he]
    simp only [run_task, hstep, List.mem_append] at hobs ⊢
    have h2 := ih (fun n hn => hobs n (Or.inr hn))
    refine ⟨h2.1, ?_⟩
    intro op hop
    rcases hop with hop | hop
    · simp at hop
      rcases hop with rfl | rfl <;> rfl
    · exact h2.2 op hop

/-- C5: one round of the capacity wait reads the free-buffer count and leaves
the wait (to the semaphore take) exactly when the value read is at least 9;
otherwise it delays one tick and stays.  The wait performs nothing but such
reads and delays, so it never changes the count.  In every run from the wait, or
from the top of a chunk iteration, in which every free-buffer count read is
below 9, no write is issued; from the wait the task is still in the same wait.
With the count fixed at 3 the task stays in the wait for any number of rounds
and issues no write, and leaves it at the first later reading of at least 9. -/
theorem capacity_wait_releases_only_at_nine :
    (∀ (e : TaskEnv) (i failcount : Nat),
      ((ble_client_my_task e (TaskState.capacity_wait i failcount)).1
          = TaskState.take i failcount ↔ 9 ≤ e.num_free)
      ∧ ((ble_client_my_task e (TaskState.capacity_wait i failcount)).1
          = TaskState.capacity_wait i failcount ↔ e.num_free < 9)
      ∧ (∀ op ∈ (ble_client_my_task e (TaskState.capacity_wait i failcount)).2,
          op = Op.os_msys_num_free e.num_free ∨ op = Op.vTaskDelay 1))
    ∧ (∀ (es : List TaskEnv) (i failcount : Nat),
      (∀ n, Op.os_msys_num_free n ∈
          (run_task (TaskState.capacity_wait i failcount) es).2 → n < 9) →
      (run_task (TaskState.capacity_wait i failcount) es).1
          = TaskState.capacity_wait i failcount
      ∧ writes (run_task (TaskState.capacity_wait i failcount) es).2 = 0
      ∧ ∀ op ∈ (run_task (TaskState.capacity_wait i failcount) es).2, is_poll op = true)
    ∧ (∀ (es : List TaskEnv) (i failcount : Nat),
      (∀ n, Op.os_msys_num_free n ∈
          (run_task (TaskState.loop_head i failcount) es).2 → n < 9) →
      writes (run_task (TaskState.loop_head i failcount) es).2 = 0)
    ∧ (∀ (k : Nat) (e e9 : TaskEnv) (i failcount : Nat), e.num_free = 3 → 9 ≤ e9.num_free →
      (run_task (TaskState.capacity_wait i failcount) (List.replicate k e)).1
          = TaskState.capacity_wait i failcount
      ∧ writes (run_task (TaskState.capacity_wait i failcount) (List.replicate k e)).2 = 0
      ∧ (run_task (TaskState.capacity_wait i failcount) (List.replicate k e ++ [e9])).1
          = TaskState.take i failcount) := by
  have key : ∀ (k : Nat) (e : TaskEnv) (i failcount : Nat), e.num_free = 3 →
      ∀ n, Op.os_msys_num_free n ∈
        (run_task (TaskState.capacity_wait i failcount) (List.replicate k e)).2 → n < 9 := by
    intro k e i failcount he
    induction k with
    | zero => intro n hn; simp [run_task] at hn
    | succ k ih =>
      intro n hn
      simp only [List.replicate_succ, run_task, ble_client_my_task, he, List.mem_append] at hn
      rcases hn with hn | hn
      · simp at hn; omega
      · simp only [show (3 : Int) < 9 by decide, if_true] at hn
        exact ih n hn
  refine ⟨?_, ?_, ?_, ?_⟩
  · intro e i failcount
    refine ⟨?_, ?_, ?_⟩
    · simp only [ble_client_my_task]
      split <;> simp <;> omega
    · simp only [ble_client_my_task]
      split <;> simp <;> omega
    · intro op hop
      simp only [ble_client_my_task] at hop
      split at hop <;> simp at hop
      · exact hop
      · exact Or.inl hop
  · intro es i failcount hobs
    have h1 := run_capacity_wait es i failcount hobs
    exact ⟨h1.1, (run_before_capacity es (TaskState.capacity_wait i failcount) rfl hobs).2, h1.2⟩
  · intro es i failcount hobs
    exact (run_before_capacity es (TaskState.loop_head i failcount) rfl hobs).2
  · intro k e e9 i failcount he he9
    have hobs := key k e i failcount he
    have h1 := run_capacity_wait _ i failcount hobs
    refine ⟨h1.1, (run_before_capacity _ (TaskState.capacity_wait i failcount) rfl hobs).2, ?_⟩
    rw [run_task_append]
    simp only [h1.1, run_task, ble_client_my_task]
    have : ¬ e9.num_free < 9 := by omega
    simp [this]

/-- Witness of C5 (scenario 4): with the free-buffer count fixed at 3 the task
is still in the capacity wait of chunk 0 after five rounds and has issued no
write; a reading of 9 on the sixth round releases it. -/
theorem capacity_wait_releases_only_at_nine_witness :
    (TaskEnv.mk 7 3 true 0).num_free = 3 ∧ 9 ≤ (TaskEnv.mk 7 9 true 0).num_free
    ∧ (run_task (TaskState.capacity_wait 0 0) (List.replicate 5 (TaskEnv.mk 7 3 true 0))).1
        = TaskState.capacity_wait 0 0
    ∧ writes (run_task (TaskState.capacity_wait 0 0)
        (List.replicate 5 (TaskEnv.mk 7 3 true 0))).2 = 0
    ∧ (run_task (TaskState.capacity_wait 0 0)
        (List.replicate 5 (TaskEnv.mk 7 3 true 0) ++ [TaskEnv.mk 7 9 true 0])).1
        = TaskState.take 0 0 :=
  ⟨rfl, by decide,
    capacity_wait_releases_only_at_nine.2.2.2 5 (TaskEnv.mk 7 3 true 0) (TaskEnv.mk 7 9 true 0)
      0 0 rfl (by decide)⟩

theorem lock_discipline_append (a b : List Op) :
    ∀ st st1 : LockSt, lock_discipline st a = some st1 →
      lock_discipline st (a ++ b) = lock_discipline st1 b := by
  induction a with
  | nil => intro st st1 h; simp [lock_discipline] at h; simp [h]
  | cons op a ih =>
    intro st st1 h
    simp only [lock_discipline, List.cons_append] at h ⊢
    cases hop : lock_step st op with
    | none => simp [hop] at h
    | some st2 =>
      simp only [hop] at h ⊢
      exact ih _ _ h

theorem step_lock_discipline (e : TaskEnv) (s : TaskState) :
    lock_discipline (lock_of s) (ble_client_my_task e s).2
      = some (lock_of (ble_client_my_task e s).1) := by
  cases s <;> simp only [ble_client_my_task] <;> (try split) <;> (try split) <;> rfl

theorem run_lock_discipline (es : List TaskEnv) :
    ∀ s : TaskState, lock_discipline (lock_of s) (run_task s es).2
      = some (lock_of (run_task s es).1) := by
  induction es with
  | nil => intro s; simp [run_task, lock_discipline]
  | cons e es ih =>
    intro s
    simp only [run_task]
    rw [lock_discipline_append _ _ _ _ (step_lock_discipline e s)]
    exact ih _

theorem mtu_exchanges_append (a b : List Op) :
    mtu_exchanges (a ++ b) = mtu_exchanges a + mtu_exchanges b := by
  induction a with
  | nil => simp [mtu_exchanges]
  | cons op a ih => cases op <;> simp [mtu_exchanges, ih]; omega

theorem step_mtu_exchanges (e : TaskEnv) (s : TaskState) :
    mtu_exchanges (ble_client_my_task e s).2 + mtu_ahead (ble_client_my_task e s).1
      ≤ mtu_ahead s := by
  cases s <;> simp only [ble_client_my_task] <;> (repeat' split) <;>
    simp [mtu_exchanges, mtu_ahead]

theorem run_mtu_exchanges (es : List TaskEnv) :
    ∀ s : TaskState, mtu_exchanges (run_task s es).2 ≤ mtu_ahead s := by
  induction es with
  | nil => intro s; simp [run_task, mtu_exchanges]
  | cons e es ih =>
    intro s
    simp only [run_task, mtu_exchanges_append]
    have h1 := step_mtu_exchanges e s
    have h2 := ih (ble_client_my_task e s).1
    omega

/-- C8: in every run of the task from its start, under any semaphore results,
write statuses, free-buffer counts and values of `connection_handle`, the
operations obey the lock discipline: `ble_gattc_exchange_mtu` and every
`ble_gattc_write_flat` are issued only right under a successful
`xSemaphoreTake`, and each is followed by exactly one `xSemaphoreGive` before the
next take, whatever the operation returned.  When a take fails, the step issues
only that take (no stack operation, no give) and the task moves on: to the delay
after the MTU step, or to the next chunk iteration.  At most one
`ble_gattc_exchange_mtu` call is made in a run. -/
theorem stack_ops_only_under_lock :
    (∀ es : List TaskEnv,
      lock_discipline LockSt.free (run_task TaskState.start es).2
        = some (lock_of (run_task TaskState.start es).1))
    ∧ (∀ e : TaskEnv, e.take_ok = false →
      ble_client_my_task e TaskState.start = (TaskState.delay10, [Op.xSemaphoreTake false]))
    ∧ (∀ (e : TaskEnv) (i failcount : Nat), e.take_ok = false →
      ble_client_my_task e (TaskState.take i failcount)
        = (TaskState.loop_head (i + 1) failcount, [Op.xSemaphoreTake false]))
    ∧ (∀ (e e1 : TaskEnv) (i failcount : Nat),
      (run_task (TaskState.write i failcount) [e, e1]).2
        = [Op.ble_gattc_write_flat e.connection_handle e.write_rc, Op.xSemaphoreGive])
    ∧ (∀ es : List TaskEnv, mtu_exchanges (run_task TaskState.start es).2 ≤ 1) := by
  refine ⟨fun es => run_lock_discipline es TaskState.start, ?_, ?_, ?_,
    fun es => (run_mtu_exchanges es TaskState.start).trans (le_of_eq rfl)⟩
  · intro e he
    simp [ble_client_my_task, he]
  · intro e i failcount he
    simp [ble_client_my_task, he]
  · intro e e1 i failcount
    simp [run_task, ble_client_my_task]

/-- Witness of C8: a failed take at the start and at chunk 4 issues only the
take; the checker accepts a take, write, give round and rejects a write without
a take and a second give. -/
theorem stack_ops_only_under_lock_witness :
    (TaskEnv.mk 7 20 false 0).take_ok = false
    ∧ ble_client_my_task (TaskEnv.mk 7 20 false 0) TaskState.start
        = (TaskState.delay10, [Op.xSemaphoreTake false])
    ∧ ble_client_my_task (TaskEnv.mk 7 20 false 0) (TaskState.take 4 1)
        = (TaskState.loop_head (4 + 1) 1, [Op.xSemaphoreTake false])
    ∧ lock_discipline LockSt.free
        [Op.xSemaphoreTake true, Op.ble_gattc_write_flat 7 3, Op.xSemaphoreGive]
        = some LockSt.free
    ∧ lock_discipline LockSt.free [Op.xSemaphoreTake false, Op.ble_gattc_write_flat 7 0] = none
    ∧ lock_discipline LockSt.free
        [Op.xSemaphoreTake true, Op.ble_gattc_write_flat 7 0, Op.xSemaphoreGive,
          Op.xSemaphoreGive] = none :=
  ⟨rfl, stack_ops_only_under_lock.2.1 (TaskEnv.mk 7 20 false 0) rfl,
    stack_ops_only_under_lock.2.2.1 (TaskEnv.mk 7 20 false 0) 4 1 rfl,
    by decide, by decide, by decide⟩

theorem write_rcs_append (a b : List Op) : write_rcs (a ++ b) = write_rcs a ++ write_rcs b := by
  induction a with
  | nil => simp [write_rcs]
  | cons op a ih => cases op <;> simp [write_rcs, ih]

theorem failed_writes_append (a b : List Op) :
    failed_writes (a ++ b) = failed_writes a + failed_writes b := by
  simp [failed_writes, write_rcs_append]

theorem write_rcs_length (ops : List Op) : (write_rcs ops).length = writes ops := by
  induction ops with
  | nil => rfl
  | cons op ops ih => cases op <;> simp [write_rcs, writes, ih]

theorem step_in_pass (e : TaskEnv) (s : TaskState) (hlive : e.connection_handle ≠ 9999)
    (hlock : e.take_ok = true) (hs : in_pass s = true) (hnd : ∀ fc, s ≠ TaskState.pass_done fc) :
    in_pass (ble_client_my_task e s).1 = true
    ∧ done_chunks (ble_client_my_task e s).1 = done_chunks s + writes (ble_client_my_task e s).2
    ∧ cur_failcount (ble_client_my_task e s).1
        = cur_failcount s + failed_writes (ble_client_my_task e s).2
    ∧ steps_left (ble_client_my_task e s).1 + (if 9 ≤ e.num_free then 1 else 0) ≤ steps_left s := by
  cases s <;> simp only [in_pass, decide_eq_true_eq] at hs <;>
    simp only [ble_client_my_task] <;> (try split) <;> (try split) <;>
    simp_all [in_pass, done_chunks, cur_failcount, steps_left, writes, failed_writes, write_rcs] <;>
    omega

theorem run_pass_cons (e : TaskEnv) (es : List TaskEnv) (s : TaskState)
    (hnd : ∀ fc, s ≠ TaskState.pass_done fc) (hdel : s ≠ TaskState.deleted) :
    run_pass s (e :: es) =
      match run_pass (ble_client_my_task e s).1 es with
      | none => none
      | some (s1, ops) => some (s1, (ble_client_my_task e s).2 ++ ops) := by
  cases s <;> simp_all [run_pass]

theorem run_pass_nil (s : TaskState)
    (hnd : ∀ fc, s ≠ TaskState.pass_done fc) (hdel : s ≠ TaskState.deleted) :
    run_pass s [] = none := by
  cases s <;> simp_all [run_pass]

theorem in_pass_ne_deleted (s : TaskState) (hs : in_pass s = true) : s ≠ TaskState.deleted := by
  intro h; subst h; simp [in_pass] at hs

theorem run_pass_counts (es : List TaskEnv) :
    ∀ (s s1 : TaskState) (ops : List Op),
      (∀ e ∈ es, e.connection_handle ≠ 9999) → (∀ e ∈ es, e.take_ok = true) →
      in_pass s = true → run_pass s es = some (s1, ops) →
      s1 = TaskState.pass_done (cur_failcount s + failed_writes ops)
      ∧ done_chunks s + writes ops = 500 := by
  induction es with
  | nil =>
    intro s s1 ops _ _ hs hrun
    by_cases hnd : ∀ fc, s ≠ TaskState.pass_done fc
    · rw [run_pass_nil s hnd (in_pass_ne_deleted s hs)] at hrun
      simp at hrun
    · push_neg at hnd
      obtain ⟨fc, rfl⟩ := hnd
      simp only [run_pass, Option.some.injEq, Prod.mk.injEq] at hrun
      obtain ⟨rfl, rfl⟩ := hrun
      simp [cur_failcount, failed_writes, write_rcs, done_chunks, writes]
  | cons e es ih =>
    intro s s1 ops hlive hlock hs hrun
    by_cases hnd : ∀ fc, s ≠ TaskState.pass_done fc
    · rw [run_pass_cons e es s hnd (in_pass_ne_deleted s hs)] at hrun
      have hstep := step_in_pass e s (hlive e (List.mem_cons_self _ _))
        (hlock e (List.mem_cons_self _ _)) hs hnd
      cases hrest : run_pass (ble_client_my_task e s).1 es with
      | none => simp [hrest] at hrun
      | some r =>
        obtain ⟨s2, ops2⟩ := r
        simp only [hrest, Option.some.injEq, Prod.mk.injEq] at hrun
        obtain ⟨rfl, rfl⟩ := hrun
        have h2 := ih _ _ _ (fun x hx => hlive x (List.mem_cons_of_mem _ hx))
          (fun x hx => hlock x (List.mem_cons_of_mem _ hx)) hstep.1 hrest
        rw [failed_writes_append, writes_append]
        refine ⟨?_, ?_⟩
        · rw [h2.1, hstep.2.2.1, Nat.add_assoc]
        · have := h2.2
          rw [hstep.2.1] at this
          omega
    · push_neg at hnd
      obtain ⟨fc, rfl⟩ := hnd
      simp only [run_pass, Option.some.injEq, Prod.mk.injEq] at hrun
      obtain ⟨rfl, rfl⟩ := hrun
      simp [cur_failcount, failed_writes, write_rcs, done_chunks, writes]

theorem run_pass_completes (es : List TaskEnv) :
    ∀ s : TaskState,
      (∀ e ∈ es, e.connection_handle ≠ 9999) → (∀ e ∈ es, e.take_ok = true) →
      in_pass s = true → steps_left s ≤ es.countP (fun e => decide (9 ≤ e.num_free)) →
      ∃ r, run_pass s es = some r := by
  induction es with
  | nil =>
    intro s _ _ hs hle
    cases s <;> simp only [in_pass, decide_eq_true_eq] at hs <;>
      simp_all [run_pass, steps_left] <;> omega
  | cons e es ih =>
    intro s hlive hlock hs hle
    by_cases hnd : ∀ fc, s ≠ TaskState.pass_done fc
    · have hstep := step_in_pass e s (hlive e (List.mem_cons_self _ _))
        (hlock e (List.mem_cons_self _ _)) hs hnd
      have hle2 : steps_left (ble_client_my_task e s).1
          ≤ es.countP (fun e => decide (9 ≤ e.num_free)) := by
        have h4 := hstep.2.2.2
        rw [List.countP_cons] at hle
        by_cases h9 : 9 ≤ e.num_free
        · simp only [h9, if_true, decide_True] at h4 hle; omega
        · simp only [h9, if_false, decide_False] at h4 hle
          simp at hle; omega
      obtain ⟨r, hr⟩ := ih _ (fun x hx => hlive x (List.mem_cons_of_mem _ hx))
        (fun x hx => hlock x (List.mem_cons_of_mem _ hx)) hstep.1 hle2
      rw [run_pass_cons e es s hnd (in_pass_ne_deleted s hs), hr]
      exact ⟨_, rfl⟩
    · push_neg at hnd
      obtain ⟨fc, rfl⟩ := hnd
      exact ⟨_, rfl⟩

theorem countP_of_pattern (l : List Int) :
    ∀ q : Nat → Bool, (∀ k, k < l.length → (l.getD k 0 ≠ 0 ↔ q k = true)) →
      l.countP (fun rc => decide (rc ≠ 0)) = (List.range l.length).countP q := by
  induction l with
  | nil => intro q _; rfl
  | cons x l ih =>
    intro q hq
    have h0 := hq 0 (by simp)
    have hs := ih (fun k => q (k + 1)) (fun k hk => by
      have := hq (k + 1) (by simpa using hk)
      simpa using this)
    rw [List.length_cons, List.range_succ_eq_map, List.countP_cons, List.countP_cons,
      List.countP_map, hs]
    simp only [List.getD_cons_zero] at h0
    have hfun : (q ∘ Nat.succ) = (fun k => q (k + 1)) := rfl
    rw [hfun]
    by_cases hx : x = 0
    · have : q 0 = false := by
        cases hq0 : q 0
        · rfl
        · exact absurd hx (h0.2 hq0)
      simp [hx, this]
    · have : q 0 = true := h0.1 hx
      simp [hx, this]

set_option maxRecDepth 100000 in
theorem every_tenth_of_500 :
    (List.range 500).countP (fun k => decide ((k + 1) % 10 = 0)) = 50 := by
  decide

/-- C6: in every pass run under environments in which `connection_handle` is
never 9999 and every semaphore take succeeds, whatever the write statuses and
free-buffer counts: the pass starts with `failcount = 0`; a write step adds one
to `failcount` exactly when the status is non-zero and the task goes on to the
next chunk either way; if the pass ends, it ends at `pass_done` after exactly
500 writes with `failcount` equal to the number of writes that returned
non-zero, which is 50 when exactly every 10th write failed; and the pass does
end once the environments hold 2502 free-buffer counts of at least 9. -/
theorem pass_failcount_counts_failed_writes (es : List TaskEnv)
    (hlive : ∀ e ∈ es, e.connection_handle ≠ 9999) (hlock : ∀ e ∈ es, e.take_ok = true) :
    (∀ e : TaskEnv, (ble_client_my_task e TaskState.pass_start).1 = TaskState.loop_head 0 0)
    ∧ (∀ (e e1 : TaskEnv) (i failcount : Nat),
        (run_task (TaskState.write i failcount) [e, e1]).1
          = TaskState.loop_head (i + 1) (failcount + (if e.write_rc ≠ 0 then 1 else 0)))
    ∧ (∀ (s : TaskState) (ops : List Op), run_pass TaskState.pass_start es = some (s, ops) →
        s = TaskState.pass_done (failed_writes ops)
        ∧ writes ops = 500
        ∧ ((∀ k, k < 500 → ((write_rcs ops).getD k 0 ≠ 0 ↔ (k + 1) % 10 = 0)) →
            s = TaskState.pass_done 50))
    ∧ (2502 ≤ es.countP (fun e => decide (9 ≤ e.num_free)) →
        ∃ failcount ops,
          run_pass TaskState.pass_start es = some (TaskState.pass_done failcount, ops)) := by
  refine ⟨fun e => rfl, ?_, ?_, ?_⟩
  · intro e e1 i failcount
    simp only [run_task, ble_client_my_task]
    by_cases h : e.write_rc = 0 <;> simp [h]
  · intro s ops hrun
    have h := run_pass_counts es TaskState.pass_start _ _ hlive hlock rfl hrun
    simp only [cur_failcount, done_chunks, Nat.zero_add] at h
    refine ⟨h.1, h.2, ?_⟩
    intro hpat
    have hlen : (write_rcs ops).length = 500 := by rw [write_rcs_length, h.2]
    have hc := countP_of_pattern (write_rcs ops) (fun k => decide ((k + 1) % 10 = 0))
      (fun k hk => by
        have := hpat k (by omega)
        simpa using this)
    rw [hlen, every_tenth_of_500] at hc
    rw [h.1]
    simp only [failed_writes]
    rw [hc]
  · intro hcount
    obtain ⟨r, hr⟩ := run_pass_completes es TaskState.pass_start hlive hlock rfl hcount
    obtain ⟨s, ops⟩ := r
    have h := run_pass_counts es TaskState.pass_start _ _ hlive hlock rfl hr
    exact ⟨_, ops, by rw [hr, h.1]⟩

/-- Witness of C6 (scenario 5): the environments of `scenario5` keep the record
at 7 and let every take succeed; the pass ends, after 500 writes of which exactly
every 10th returned non-zero, with `failcount = 50`. -/
theorem pass_failcount_counts_failed_writes_witness :
    (∀ e ∈ scenario5, e.connection_handle ≠ 9999) ∧ (∀ e ∈ scenario5, e.take_ok = true)
    ∧ 2502 ≤ scenario5.countP (fun e => decide (9 ≤ e.num_free))
    ∧ (∃ failcount ops,
        run_pass TaskState.pass_start scenario5 = some (TaskState.pass_done failcount, ops))
    ∧ (run_pass TaskState.pass_start scenario5).map (fun r => (r.1, writes r.2))
        = some (TaskState.pass_done 50, 500)
    ∧ (run_pass TaskState.pass_start scenario5).map (fun r => write_rcs r.2)
        = some ((List.range 500).map (fun k => if (k + 1) % 10 = 0 then 1 else 0)) :=
  ⟨by decide!, by decide!, by decide!,
    (pass_failcount_counts_failed_writes scenario5 (by decide!) (by decide!)).2.2.2 (by decide!),
    by decide!, by decide!⟩

/-! ## The firmware as a whole: callback and tasks interleaved -/

/-- C1 (the code breaks it): along `race_in_wait` the disconnect is handled
while the task sits in the capacity wait of an iteration whose check had read 7;
the callback stores 9999, and the task then takes the semaphore and calls
`ble_gattc_write_flat` with handle 9999.  Along `race_in_take` the same happens
when the disconnect is handled between the end of the wait and the take. -/
theorem write_issued_after_disconnect :
    (System.run System.boot race_in_wait).map (fun r => r.2)
      = some [Op.ble_gap_conn_find 7 0, Op.store_is_connect true,
          Op.store_connection_handle 7, Op.xTaskCreatePinnedToCore,
          Op.xSemaphoreTake true, Op.ble_gattc_exchange_mtu 7, Op.xSemaphoreGive,
          Op.vTaskDelay 10, Op.os_msys_num_free 12,
          Op.load_connection_handle 7,
          Op.os_msys_num_free 3, Op.vTaskDelay 1,
          Op.store_connection_handle 9999, Op.ble_gap_adv_set_fields 0, Op.ble_gap_adv_start 0,
          Op.os_msys_num_free 9, Op.xSemaphoreTake true,
          Op.ble_gattc_write_flat 9999 7]
    ∧ (System.run System.boot race_in_take).map (fun r => r.2)
      = some [Op.ble_gap_conn_find 7 0, Op.store_is_connect true,
          Op.store_connection_handle 7, Op.xTaskCreatePinnedToCore,
          Op.xSemaphoreTake true, Op.ble_gattc_exchange_mtu 7, Op.xSemaphoreGive,
          Op.vTaskDelay 10, Op.os_msys_num_free 12,
          Op.load_connection_handle 7,
          Op.os_msys_num_free 9,
          Op.store_connection_handle 9999, Op.ble_gap_adv_set_fields 0, Op.ble_gap_adv_start 0,
          Op.xSemaphoreTake true,
          Op.ble_gattc_write_flat 9999 7] := by
  decide

/-- C3 (the code breaks it): along `quick_reconnect` the disconnect and the
next successful connect are handled before the task of the first connection
reaches its next check, so that check reads 8, not 9999, and the task does not
delete itself: after the second connect two tasks are running while the record
holds the single handle 8, and both address their stack operations to handle
8. -/
theorem reconnect_leaves_two_tasks :
    (System.run System.boot quick_reconnect).map
        (fun r => (r.1.g.connection_handle, r.1.tasks, r.1.running))
      = some (8, [TaskState.capacity_wait 1 0, TaskState.mtu_give], 2)
    ∧ (System.run System.boot quick_reconnect).map (fun r => r.2) = some quick_reconnect_ops := by
  decide

theorem countP_set_running (l : List TaskState) :
    ∀ (k : Nat) (t t1 : TaskState), l.get? k = some t →
      (l.set k t1).countP (fun x => decide (x ≠ TaskState.deleted))
          + (if t ≠ TaskState.deleted then 1 else 0)
        = l.countP (fun x => decide (x ≠ TaskState.deleted))
          + (if t1 ≠ TaskState.deleted then 1 else 0) := by
  induction l with
  | nil => intro k t t1 h; simp at h
  | cons x l ih =>
    intro k t t1 h
    cases k with
    | zero =>
      simp only [List.get?_cons_zero, Option.some.injEq] at h
      subst h
      simp only [List.set_cons_zero, List.countP_cons, decide_eq_true_eq]
      omega
    | succ k =>
      simp only [List.get?_cons_succ] at h
      have := ih k t t1 h
      simp only [List.set_cons_succ, List.countP_cons]
      omega

theorem step_delete_count (e : TaskEnv) (t : TaskState) :
    (if (ble_client_my_task e t).1 ≠ TaskState.deleted then 1 else 0)
        + (ble_client_my_task e t).2.count Op.vTaskDelete
      = (if t ≠ TaskState.deleted then 1 else 0)
    ∧ created (ble_client_my_task e t).2 = 0 := by
  cases t <;> simp only [ble_client_my_task] <;> (repeat' split) <;> simp_all [created]

theorem gap_event_counts (rc : HostRc) (g g1 : Globals) (ev : ble_gap_event) (ops : List Op)
    (h : ble_spp_server_gap_event rc g ev = some (g1, ops)) :
    created ops = (Sched.gap ev rc).connects ∧ ops.count Op.vTaskDelete = 0 := by
  have hadv : created (ble_spp_server_advertise rc) = 0
      ∧ (ble_spp_server_advertise rc).count Op.vTaskDelete = 0 := by
    rcases advertise_cases rc with ⟨_, h⟩ | ⟨_, h⟩ <;> rw [h] <;> simp [created]
  cases ev with
  | connect status conn_handle =>
    by_cases hst : status = 0
    · subst hst
      by_cases hrc : rc.conn_find_rc = 0
      · rw [gap_event_connect_ok rc g conn_handle hrc] at h
        simp only [Option.some.injEq, Prod.mk.injEq] at h
        obtain ⟨_, rfl⟩ := h
        simp [created, Sched.connects]
      · simp [ble_spp_server_gap_event, hrc] at h
    · rw [gap_event_connect_failed rc g conn_handle status hst] at h
      simp only [Option.some.injEq, Prod.mk.injEq] at h
      obtain ⟨_, rfl⟩ := h
      simp [Sched.connects, hst, hadv]
  | disconnect reason =>
    simp only [ble_spp_server_gap_event, Option.some.injEq, Prod.mk.injEq] at h
    obtain ⟨_, rfl⟩ := h
    have h1 := hadv.1
    have h2 := hadv.2
    simp only [created] at h1 ⊢
    simp [Sched.connects, h1, h2]
  | conn_update status conn_handle =>
    by_cases hrc : rc.conn_find_rc = 0
    · simp only [ble_spp_server_gap_event, hrc, if_true, Option.some.injEq, Prod.mk.injEq] at h
      obtain ⟨_, rfl⟩ := h
      simp [created, Sched.connects]
    · simp [ble_spp_server_gap_event, hrc] at h
  | adv_complete reason =>
    simp only [ble_spp_server_gap_event, Option.some.injEq, Prod.mk.injEq] at h
    obtain ⟨_, rfl⟩ := h
    simp [Sched.connects, hadv]
  | mtu a b c =>
    simp only [ble_spp_server_gap_event, Option.some.injEq, Prod.mk.injEq] at h
    obtain ⟨_, rfl⟩ := h
    simp [created, Sched.connects]
  | other ty =>
    simp only [ble_spp_server_gap_event, Option.some.injEq, Prod.mk.injEq] at h
    obtain ⟨_, rfl⟩ := h
    simp [created, Sched.connects]

theorem System.step_counts (s s1 : System) (x : Sched) (ops : List Op)
    (h : s.step x = some (s1, ops)) :
    s1.tasks.length = s.tasks.length + x.connects
    ∧ created ops = x.connects
    ∧ s1.running + ops.count Op.vTaskDelete = s.running + x.connects := by
  cases x with
  | gap ev rc =>
    simp only [System.step] at h
    cases hev : ble_spp_server_gap_event rc s.g ev with
    | none => simp [hev] at h
    | some r =>
      obtain ⟨g1, ops1⟩ := r
      simp only [hev, Option.some.injEq, Prod.mk.injEq] at h
      obtain ⟨rfl, rfl⟩ := h
      have hc := gap_event_counts rc s.g g1 ev ops1 hev
      simp [System.running, hc.1, hc.2, List.countP_replicate]
  | task k num_free take_ok write_rc =>
    simp only [System.step] at h
    cases hk : s.tasks.get? k with
    | none =>
      simp only [hk, Option.some.injEq, Prod.mk.injEq] at h
      obtain ⟨rfl, rfl⟩ := h
      simp [Sched.connects, created]
    | some t =>
      simp only [hk, Option.some.injEq, Prod.mk.injEq] at h
      obtain ⟨rfl, rfl⟩ := h
      have h1 := countP_set_running s.tasks k t
        (ble_client_my_task (TaskEnv.mk s.g.connection_handle num_free take_ok write_rc) t).1 hk
      have h2 := step_delete_count
        (TaskEnv.mk s.g.connection_handle num_free take_ok write_rc) t
      simp only [System.running, Sched.connects, List.length_set, Nat.add_zero]
      refine ⟨trivial, h2.2, ?_⟩
      omega

theorem System.run_counts (sched : List Sched) :
    ∀ (s s1 : System) (ops : List Op), System.run s sched = some (s1, ops) →
      s1.tasks.length = s.tasks.length + connects sched
      ∧ created ops = connects sched
      ∧ s1.running + ops.count Op.vTaskDelete = s.running + connects sched := by
  induction sched with
  | nil =>
    intro s s1 ops h
    simp only [System.run, Option.some.injEq, Prod.mk.injEq] at h
    obtain ⟨rfl, rfl⟩ := h
    simp [connects, created]
  | cons x rest ih =>
    intro s s1 ops h
    simp only [System.run] at h
    cases hx : s.step x with
    | none => simp [hx] at h
    | some r =>
      obtain ⟨sa, opsa⟩ := r
      simp only [hx] at h
      cases hrest : System.run sa rest with
      | none => simp [hrest] at h
      | some r1 =>
        obtain ⟨sb, opsb⟩ := r1
        simp only [hrest, Option.some.injEq, Prod.mk.injEq] at h
        obtain ⟨rfl, rfl⟩ := h
        have h1 := System.step_counts s sa x opsa hx
        have h2 := ih sa _ opsb hrest
        simp only [created, connects, List.count_append] at h1 h2 ⊢
        omega

theorem step_first_check_none (e : TaskEnv) (s : TaskState)
    (he : e.connection_handle = 9999) (hs : before_first_check s = true) :
    before_first_check (ble_client_my_task e s).1 = true
    ∧ writes (ble_client_my_task e s).2 = 0
    ∧ (steps_to_first_check (ble_client_my_task e s).1 + 1 ≤ steps_to_first_check s
        ∨ (ble_client_my_task e s).1 = TaskState.deleted) := by
  cases s with
  | loop_head i failcount =>
    cases i with
    | zero =>
      cases failcount with
      | zero => simp [ble_client_my_task, he, before_first_check, writes]
      | succ n => simp [before_first_check] at hs
    | succ n => simp [before_first_check] at hs
  | start =>
    simp only [ble_client_my_task]
    split <;> simp [before_first_check, writes, steps_to_first_check]
  | mtu => simp [ble_client_my_task, before_first_check, writes, steps_to_first_check]
  | mtu_give => simp [ble_client_my_task, before_first_check, writes, steps_to_first_check]
  | delay10 => simp [ble_client_my_task, before_first_check, writes, steps_to_first_check]
  | pass_start => simp [ble_client_my_task, before_first_check, writes, steps_to_first_check]
  | deleted => simp [ble_client_my_task, before_first_check, writes]
  | capacity_wait i failcount => simp [before_first_check] at hs
  | take i failcount => simp [before_first_check] at hs
  | write i failcount => simp [before_first_check] at hs
  | give i failcount => simp [before_first_check] at hs
  | pass_done failcount => simp [before_first_check] at hs

theorem run_first_check_none (es : List TaskEnv) :
    ∀ s : TaskState, (∀ e ∈ es, e.connection_handle = 9999) → before_first_check s = true →
      before_first_check (run_task s es).1 = true
      ∧ writes (run_task s es).2 = 0
      ∧ (steps_to_first_check s ≤ es.length → (run_task s es).1 = TaskState.deleted) := by
  induction es with
  | nil =>
    intro s _ hs
    refine ⟨hs, rfl, ?_⟩
    intro hle
    cases s <;> simp_all [run_task, before_first_check, steps_to_first_check]
  | cons e es ih =>
    intro s hes hs
    have h1 := step_first_check_none e s (hes e (List.mem_cons_self _ _)) hs
    have h2 := ih _ (fun x hx => hes x (List.mem_cons_of_mem _ hx)) h1.1
    simp only [run_task, writes_append, h1.2.1, h2.2.1, List.length_cons]
    refine ⟨h2.1, trivial, ?_⟩
    intro hle
    rcases h1.2.2 with hlt | hdel
    · exact h2.2.2 (by omega)
    · rw [hdel, run_task_deleted]

theorem run_task_loads (es : List TaskEnv) :
    ∀ (s : TaskState) (v : uint16_t), Op.load_connection_handle v ∈ (run_task s es).2 →
      ∃ e ∈ es, e.connection_handle = v := by
  induction es with
  | nil => intro s v h; simp [run_task] at h
  | cons e es ih =>
    intro s v h
    simp only [run_task, List.mem_append] at h
    rcases h with h | h
    · refine ⟨e, List.mem_cons_self _ _, ?_⟩
      cases s <;> simp only [ble_client_my_task] at h <;> (repeat' split at h) <;>
        simp_all
    · obtain ⟨x, hx, hv⟩ := ih _ v h
      exact ⟨x, List.mem_cons_of_mem _ hx, hv⟩

theorem System.connect_then_task (s : System) (rc : HostRc) (h : uint16_t)
    (ins : List (Int × Bool × Int)) (hrc : rc.conn_find_rc = 0) :
    System.run s (Sched.gap (ble_gap_event.connect 0 h) rc :: task_steps s.tasks.length ins)
      = some (System.mk (Globals.mk true h)
            ((s.tasks ++ [TaskState.start]).set s.tasks.length
              (run_task TaskState.start (envs_at h ins)).1),
          [Op.ble_gap_conn_find h 0, Op.store_is_connect true,
            Op.store_connection_handle h, Op.xTaskCreatePinnedToCore]
            ++ (run_task TaskState.start (envs_at h ins)).2) := by
  have hget : (System.mk (Globals.mk true h) (s.tasks ++ [TaskState.start])).tasks.get?
      s.tasks.length = some TaskState.start := by simp
  have h1 := System.run_task_steps s.tasks.length ins _ _ hget
  have hc : created [Op.ble_gap_conn_find h 0, Op.store_is_connect true,
      Op.store_connection_handle h, Op.xTaskCreatePinnedToCore] = 1 := by
    simp [created]
  simp only [System.run, System.step, gap_event_connect_ok rc s.g h hrc, hc]
  have hrep : List.replicate 1 TaskState.start = [TaskState.start] := rfl
  rw [hrep, h1]

theorem gap_event_stores (rc : HostRc) (g g1 : Globals) (ev : ble_gap_event) (ops : List Op)
    (h : ble_spp_server_gap_event rc g ev = some (g1, ops)) :
    (∀ v, Op.store_connection_handle v ∈ ops →
      g1.connection_handle = v ∧
        (((∃ reason, ev = ble_gap_event.disconnect reason) ∧ v = 9999)
          ∨ ev = ble_gap_event.connect 0 v))
    ∧ ((∀ v, Op.store_connection_handle v ∉ ops) → g1.connection_handle = g.connection_handle) := by
  have hadv : ∀ v, Op.store_connection_handle v ∉ ble_spp_server_advertise rc := by
    intro v hv
    have := advertise_all_adv rc _ hv
    simp [is_adv_call] at this
  cases ev with
  | connect status conn_handle =>
    by_cases hst : status = 0
    · subst hst
      by_cases hrc : rc.conn_find_rc = 0
      · rw [gap_event_connect_ok rc g conn_handle hrc] at h
        simp only [Option.some.injEq, Prod.mk.injEq] at h
        obtain ⟨rfl, rfl⟩ := h
        constructor
        · intro v hv
          simp at hv
          subst hv
          exact ⟨rfl, Or.inr rfl⟩
        · intro hno
          exact absurd (by simp) (hno conn_handle)
      · simp [ble_spp_server_gap_event, hrc] at h
    · rw [gap_event_connect_failed rc g conn_handle status hst] at h
      simp only [Option.some.injEq, Prod.mk.injEq] at h
      obtain ⟨rfl, rfl⟩ := h
      exact ⟨fun v hv => absurd hv (hadv v), fun _ => rfl⟩
  | disconnect reason =>
    simp only [ble_spp_server_gap_event, Option.some.injEq, Prod.mk.injEq] at h
    obtain ⟨rfl, rfl⟩ := h
    constructor
    · intro v hv
      simp only [List.mem_cons, Op.store_connection_handle.injEq] at hv
      rcases hv with hv | hv
      · subst hv
        exact ⟨rfl, Or.inl ⟨⟨reason, rfl⟩, rfl⟩⟩
      · exact absurd hv (hadv v)
    · intro hno
      exact absurd (by simp) (hno 9999)
  | conn_update status conn_handle =>
    by_cases hrc : rc.conn_find_rc = 0
    · simp only [ble_spp_server_gap_event, hrc, if_true, Option.some.injEq, Prod.mk.injEq] at h
      obtain ⟨rfl, rfl⟩ := h
      exact ⟨fun v hv => by simp at hv, fun _ => rfl⟩
    · simp [ble_spp_server_gap_event, hrc] at h
  | adv_complete reason =>
    simp only [ble_spp_server_gap_event, Option.some.injEq, Prod.mk.injEq] at h
    obtain ⟨rfl, rfl⟩ := h
    exact ⟨fun v hv => absurd hv (hadv v), fun _ => rfl⟩
  | mtu a b c =>
    simp only [ble_spp_server_gap_event, Option.some.injEq, Prod.mk.injEq] at h
    obtain ⟨rfl, rfl⟩ := h
    exact ⟨fun v hv => by simp at hv, fun _ => rfl⟩
  | other ty =>
    simp only [ble_spp_server_gap_event, Option.some.injEq, Prod.mk.injEq] at h
    obtain ⟨rfl, rfl⟩ := h
    exact ⟨fun v hv => by simp at hv, fun _ => rfl⟩

theorem task_step_no_delete (e : TaskEnv) (t : TaskState) (he : e.connection_handle ≠ 9999) :
    Op.vTaskDelete ∉ (ble_client_my_task e t).2 := by
  cases t <;> simp only [ble_client_my_task] <;> (repeat' split) <;> simp_all

theorem System.step_no_delete (s s1 : System) (x : Sched) (ops : List Op)
    (h : s.step x = some (s1, ops)) (hg : s.g.connection_handle ≠ 9999)
    (hno : Op.store_connection_handle 9999 ∉ ops) :
    s1.g.connection_handle ≠ 9999 ∧ Op.vTaskDelete ∉ ops := by
  cases x with
  | gap ev rc =>
    simp only [System.step] at h
    cases hev : ble_spp_server_gap_event rc s.g ev with
    | none => simp [hev] at h
    | some r =>
      obtain ⟨g1, ops1⟩ := r
      simp only [hev, Option.some.injEq, Prod.mk.injEq] at h
      obtain ⟨rfl, rfl⟩ := h
      have hst := gap_event_stores rc s.g g1 ev ops1 hev
      have hc := (gap_event_counts rc s.g g1 ev ops1 hev).2
      refine ⟨?_, fun hmem => ?_⟩
      · by_cases hany : ∀ v, Op.store_connection_handle v ∉ ops1
        · simp only [hst.2 hany]
          exact hg
        · push_neg at hany
          obtain ⟨v, hv⟩ := hany
          have := (hst.1 v hv).1
          simp only [this]
          intro h9
          rw [h9] at hv
          exact hno hv
      · have := List.count_pos_iff.2 hmem
        omega
  | task k num_free take_ok write_rc =>
    simp only [System.step] at h
    cases hk : s.tasks.get? k with
    | none =>
      simp only [hk, Option.some.injEq, Prod.mk.injEq] at h
      obtain ⟨rfl, rfl⟩ := h
      exact ⟨hg, by simp⟩
    | some t =>
      simp only [hk, Option.some.injEq, Prod.mk.injEq] at h
      obtain ⟨rfl, rfl⟩ := h
      exact ⟨hg, task_step_no_delete _ t hg⟩

theorem System.run_no_delete (sched : List Sched) :
    ∀ (s s1 : System) (ops : List Op), System.run s sched = some (s1, ops) →
      s.g.connection_handle ≠ 9999 → Op.store_connection_handle 9999 ∉ ops →
      Op.vTaskDelete ∉ ops := by
  induction sched with
  | nil =>
    intro s s1 ops h _ _
    simp only [System.run, Option.some.injEq, Prod.mk.injEq] at h
    obtain ⟨rfl, rfl⟩ := h
    simp
  | cons x rest ih =>
    intro s s1 ops h hg hno
    simp only [System.run] at h
    cases hx : s.step x with
    | none => simp [hx] at h
    | some r =>
      obtain ⟨sa, opsa⟩ := r
      simp only [hx] at h
      cases hrest : System.run sa rest with
      | none => simp [hrest] at h
      | some r1 =>
        obtain ⟨sb, opsb⟩ := r1
        simp only [hrest, Option.some.injEq, Prod.mk.injEq] at h
        obtain ⟨rfl, rfl⟩ := h
        simp only [List.mem_append, not_or] at hno ⊢
        have h1 := System.step_no_delete s sa x opsa hx hg hno.1
        exact ⟨h1.2, ih sa _ opsb hrest h1.1 hno.2⟩

/-- C10: `connection_handle` is one 16-bit value and "none" is its in-band
value 9999.  (1) At a check (`i < 500`) the task deletes itself exactly when it
reads 9999.  (2) The record is a value below 2^16, 9999 is such a value, and the
record is 0, not 9999, at boot.  (3) The callback stores to the record only in
two places: a disconnect event stores the constant 9999, and a connect event
with status 0 stores the handle carried by the event; no other event changes the
record.  (4) Hence after a successful connect event carrying handle 9999 the
task created for it, run alone for any number of steps, issues no write, never
gets past its first check, and is deleted once it has run six steps.  (5) For
every handle other than 9999 the task created by a successful connect, run alone
for any number of steps, is not deleted; more generally, after such a connect no
task calls `vTaskDelete` along any schedule in which 9999 is not stored to the
record, and every task created stays running. -/
theorem sentinel_is_in_band (s : System) (rc : HostRc) (hrc : rc.conn_find_rc = 0) :
    (∀ (e : TaskEnv) (i failcount : Nat), i < 500 →
      ((ble_client_my_task e (TaskState.loop_head i failcount)).1 = TaskState.deleted
        ↔ e.connection_handle = 9999))
    ∧ ((∀ g : Globals, g.connection_handle.val < 2 ^ 16) ∧ (9999 : uint16_t).val = 9999
        ∧ Globals.boot.connection_handle = 0 ∧ Globals.boot.connection_handle ≠ 9999)
    ∧ (∀ (rc1 : HostRc) (g g1 : Globals) (ev : ble_gap_event) (ops : List Op),
        ble_spp_server_gap_event rc1 g ev = some (g1, ops) →
        (∀ v, Op.store_connection_handle v ∈ ops →
          g1.connection_handle = v ∧
            (((∃ reason, ev = ble_gap_event.disconnect reason) ∧ v = 9999)
              ∨ ev = ble_gap_event.connect 0 v))
        ∧ ((∀ v, Op.store_connection_handle v ∉ ops) →
            g1.connection_handle = g.connection_handle))
    ∧ (∀ ins : List (Int × Bool × Int), ∃ s1 ops t,
        System.run s (Sched.gap (ble_gap_event.connect 0 9999) rc
            :: task_steps s.tasks.length ins) = some (s1, ops)
        ∧ s1.g.connection_handle = 9999
        ∧ s1.tasks.get? s.tasks.length = some t
        ∧ before_first_check t = true
        ∧ writes ops = 0
        ∧ (6 ≤ ins.length → t = TaskState.deleted))
    ∧ (∀ (h : uint16_t) (ins : List (Int × Bool × Int)), h ≠ 9999 → ∃ s1 ops t,
        System.run s (Sched.gap (ble_gap_event.connect 0 h) rc
            :: task_steps s.tasks.length ins) = some (s1, ops)
        ∧ s1.tasks.get? s.tasks.length = some t
        ∧ t ≠ TaskState.deleted)
    ∧ (∀ (h : uint16_t) (rest : List Sched) (s1 : System) (ops : List Op), h ≠ 9999 →
        System.run s (Sched.gap (ble_gap_event.connect 0 h) rc :: rest) = some (s1, ops) →
        Op.store_connection_handle 9999 ∉ ops →
        Op.vTaskDelete ∉ ops ∧ s1.running = s.running + 1 + connects rest) := by
  have hget : ∀ t : TaskState,
      ((s.tasks ++ [TaskState.start]).set s.tasks.length t).get? s.tasks.length = some t :=
    fun t => get?_set_self _ _ TaskState.start t (by simp)
  refine ⟨?_, ⟨fun g => g.connection_handle.isLt, rfl, rfl, by decide⟩,
    fun rc1 g g1 ev ops h => gap_event_stores rc1 g g1 ev ops h, ?_, ?_, ?_⟩
  · intro e i failcount hi
    simp only [ble_client_my_task, hi, if_true]
    split <;> simp_all
  · intro ins
    have hrun := System.connect_then_task s rc 9999 ins hrc
    have h1 := run_first_check_none (envs_at 9999 ins) TaskState.start
      (envs_at_handle 9999 ins) rfl
    refine ⟨_, _, _, hrun, rfl, hget _, h1.1, ?_, ?_⟩
    · rw [writes_append, h1.2.1]
      rfl
    · intro hlen
      apply h1.2.2
      simpa [envs_at, steps_to_first_check] using hlen
  · intro h ins hh
    have hrun := System.connect_then_task s rc h ins hrc
    refine ⟨_, _, _, hrun, hget _, ?_⟩
    intro hdel
    have hload := (run_task_deleted_iff (envs_at h ins) TaskState.start (by decide)).1 hdel
    obtain ⟨e, he, hv⟩ := run_task_loads _ _ _ hload
    exact hh ((envs_at_handle h ins e he).symm.trans hv)
  · intro h rest s1 ops hh hrun hno
    have hcount := System.run_counts _ s s1 ops hrun
    simp only [System.run, System.step, gap_event_connect_ok rc s.g h hrc] at hrun
    cases hrest : System.run (System.mk (Globals.mk true h)
        (s.tasks ++ List.replicate (created [Op.ble_gap_conn_find h 0, Op.store_is_connect true,
          Op.store_connection_handle h, Op.xTaskCreatePinnedToCore]) TaskState.start)) rest with
    | none => simp [hrest] at hrun
    | some r =>
      obtain ⟨sb, opsb⟩ := r
      simp only [hrest, Option.some.injEq, Prod.mk.injEq] at hrun
      obtain ⟨rfl, rfl⟩ := hrun
      have hno2 : Op.store_connection_handle 9999 ∉ opsb := fun hm =>
        hno (List.mem_append_right _ hm)
      have hnd := System.run_no_delete rest _ _ opsb hrest hh hno2
      have hnd2 : Op.vTaskDelete ∉ [Op.ble_gap_conn_find h 0, Op.store_is_connect true,
          Op.store_connection_handle h, Op.xTaskCreatePinnedToCore] ++ opsb := by
        simp only [List.mem_append, not_or]
        exact ⟨by simp, hnd⟩
      refine ⟨hnd2, ?_⟩
      have h3 := hcount.2.2
      rw [List.count_eq_zero_of_not_mem hnd2] at h3
      simp only [connects, Sched.connects, if_true] at h3
      omega

/-- Witness of C10: from boot, a successful connect carrying 9999 followed by
seven steps of its task ends with that task deleted and no write issued; a
successful connect carrying 7 followed by the same steps leaves the task
running, in its first capacity wait. -/
theorem sentinel_is_in_band_witness :
    (HostRc.mk 0 0 0).conn_find_rc = 0
    ∧ (System.run System.boot (Sched.gap (ble_gap_event.connect 0 9999) (HostRc.mk 0 0 0)
          :: task_steps 0 (List.replicate 7 (3, true, 0)))).map
        (fun r => (r.1.tasks, writes r.2)) = some ([TaskState.deleted], 0)
    ∧ (System.run System.boot (Sched.gap (ble_gap_event.connect 0 7) (HostRc.mk 0 0 0)
          :: task_steps 0 (List.replicate 7 (3, true, 0)))).map
        (fun r => r.1.tasks) = some [TaskState.capacity_wait 0 0]
    ∧ (∀ ins : List (Int × Bool × Int), ∃ s1 ops t,
        System.run System.boot (Sched.gap (ble_gap_event.connect 0 9999) (HostRc.mk 0 0 0)
            :: task_steps System.boot.tasks.length ins) = some (s1, ops)
        ∧ s1.g.connection_handle = 9999
        ∧ s1.tasks.get? System.boot.tasks.length = some t
        ∧ before_first_check t = true
        ∧ writes ops = 0
        ∧ (6 ≤ ins.length → t = TaskState.deleted)) :=
  ⟨rfl, by decide, by decide,
    (sentinel_is_in_band System.boot (HostRc.mk 0 0 0) rfl).2.2.2.1⟩

end BleServer
